import Mathlib

/-!
Shallow embedding of the repec ingestion pipeline (src/repec/redif.py,
src/src/repec/papers.py, src/src/repec/sanitize.py) and proofs about it.

Python text is modelled as `List Char` (code points) and byte strings as
`List Nat`.  Regular-expression scans from the source are translated into
explicit left-to-right scanning functions with the same greedy/backtracking
semantics, restricted to the ASCII ranges the patterns name.
-/

namespace Repec

/-! ### ASCII character class helpers (the classes named by the source regexes) -/

def isUpperAZ (c : Char) : Bool := 'A' ≤ c && c ≤ 'Z'

def isLowerAZ (c : Char) : Bool := 'a' ≤ c && c ≤ 'z'

def isDigit09 (c : Char) : Bool := '0' ≤ c && c ≤ '9'

def isAlnumAZ09 (c : Char) : Bool := isUpperAZ c || isDigit09 c

def digitVal (c : Char) : Nat := c.toNat - '0'.toNat

/-! ### JEL normalization (papers.py: filterjel, parsejel)

`parsejel` does, in order:
`re.sub("([A-Z])[-., ]+([0-9])", r"\1\2", jel)`, then `jel.upper()`,
`re.split("[^A-Z0-9]+", ...)`, keeps tokens matching `[A-Z][0-9]+$`
truncated to 3 chars, maps them through `filterjel`, keeps truthy results,
and returns `sorted(set(...))` unless that equals `["R00", "Z0"]`.
-/

def isJelSep (c : Char) : Bool := c = '-' || c = '.' || c = ',' || c = ' '

/-- State machine translation of `re.sub("([A-Z])[-., ]+([0-9])", r"\1\2", jel)`:
`acc = some (c, seps)` means an uppercase `c` followed by the separator run
`seps` (reversed) has been read and may still complete a match. -/
def collapseGo : List Char → Option (Char × List Char) → List Char
  | [], Option.none => []
  | [], some (c, seps) => c :: seps.reverse
  | x :: rest, Option.none =>
    if isUpperAZ x then collapseGo rest (some (x, []))
    else x :: collapseGo rest Option.none
  | x :: rest, some (c, seps) =>
    if isJelSep x then collapseGo rest (some (c, x :: seps))
    else if isDigit09 x && 0 < seps.length then c :: x :: collapseGo rest Option.none
    else
      c :: seps.reverse ++
        (if isUpperAZ x then collapseGo rest (some (x, []))
         else x :: collapseGo rest Option.none)

def collapseSep (s : List Char) : List Char := collapseGo s Option.none

/-- `re.split("[^A-Z0-9]+", s)`: mode `false` = inside a token, mode `true` =
skipping a separator run; empty boundary tokens are produced like in Python. -/
def splitTokGo : Bool → List Char → List Char → List (List Char)
  | false, [], cur => [cur.reverse]
  | false, c :: cs, cur =>
    if isAlnumAZ09 c then splitTokGo false cs (c :: cur) else splitTokGo true cs cur
  | true, [], cur => [cur.reverse, []]
  | true, c :: cs, cur =>
    if isAlnumAZ09 c then cur.reverse :: splitTokGo false cs [c] else splitTokGo true cs cur

def splitTokens (s : List Char) : List (List Char) := splitTokGo false s []

/-- `re.match("[A-Z][0-9]+$", c)`: an uppercase letter followed by one or
more digits (tokens contain only `[A-Z0-9]`, so `$` is plain end). -/
def isJelToken : List Char → Bool
  | c :: rest => isUpperAZ c && !rest.isEmpty && rest.all isDigit09
  | [] => false

/-- The token pipeline of `parsejel` before the reference-table lookup:
collapse separators, uppercase, split, keep `[A-Z][0-9]+$` tokens
truncated to three characters. -/
def jelTokens (jel : String) : List String :=
  let collapsed := collapseSep jel.data
  let tokens := splitTokens (collapsed.map Char.toUpper)
  (tokens.filter isJelToken).map (fun t => String.mk (t.take 3))

/-- Python slicing `s[:n]` (by code points). -/
def strTake (s : String) (n : Nat) : String := String.mk (s.data.take n)

/-- papers.py `filterjel`: the code itself if official, else its 2-character
prefix if that is official, else nothing. -/
def filterjel (jel : String) (alljel : List String) : Option String :=
  if jel ∈ alljel then some jel
  else if strTake jel 2 ∈ alljel then some (strTake jel 2)
  else Option.none

/-- Python string `<` (lexicographic by code point), for `sorted`. -/
def lexLt : List Char → List Char → Bool
  | [], [] => false
  | [], _ :: _ => true
  | _ :: _, [] => false
  | a :: as, b :: bs => if a < b then true else if b < a then false else lexLt as bs

def strLt (a b : String) : Bool := lexLt a.data b.data

def insertSorted (s : String) : List String → List String
  | [] => [s]
  | t :: ts => if strLt t s then t :: insertSorted s ts else s :: t :: ts

def sortStrings (l : List String) : List String := l.foldr insertSorted []

/-- Distinct elements of a list (Python `set`; the set is unordered and the
caller sorts it, so keeping the last occurrence of each element is
equivalent). -/
def dedupStr : List String → List String
  | [] => []
  | s :: rest => if s ∈ rest then dedupStr rest else s :: dedupStr rest

/-- papers.py `parsejel`. -/
def parsejel (jel : String) (alljel : List String) : List String :=
  let tokens := jelTokens jel
  let mapped := tokens.map (fun c => filterjel c alljel)
  let kept := (mapped.filterMap id).filter (fun c => c ≠ "")
  let out := sortStrings (dedupStr kept)
  if out = ["R00", "Z0"] then [] else out

/-- papers.py `replace_paper`, lines 150-153: the JEL codes persisted for a
collected record (`record` maps a field name to its value list; `collect`
never yields an empty value list for a present field). -/
def persistedJel (record : String → Option (List String)) (alljel : List String) :
    List String :=
  match record "classification-jel" with
  | some (v :: _) => parsejel v alljel
  | _ => []

/-! ### Year resolution (papers.py: parse_year, get_year) -/

/-- The scan of `re.search("(?<![0-9])[0-9]{4}", date)`: leftmost position
whose previous character is not a digit and which starts four digits.
`prev` records whether the previous character was a digit. -/
def findYear : Bool → List Char → Option Nat
  | _, [] => Option.none
  | prev, c :: rest =>
    if !prev && isDigit09 c then
      match rest with
      | d1 :: d2 :: d3 :: _ =>
        if isDigit09 d1 && isDigit09 d2 && isDigit09 d3 then
          some (((digitVal c * 10 + digitVal d1) * 10 + digitVal d2) * 10 + digitVal d3)
        else findYear true rest
      | _ => findYear true rest
    else findYear (isDigit09 c) rest

/-- papers.py `parse_year`: the matched 4-digit number unless it is "0000". -/
def parse_year (date : String) : Option Nat :=
  match findYear false date.data with
  | some n => if n ≠ 0 then some n else Option.none
  | Option.none => Option.none

def yearFields : List String := ["year", "creation-date", "revision-date"]

/-- The per-field year list of `get_year`: parse every value, keep the
truthy results. -/
def fieldYears (vs : List String) : List Nat :=
  ((vs.map parse_year).filterMap id).filter (fun y => y ≠ 0)

/-- Python `min` over a nonempty list. -/
def minList : List Nat → Option Nat
  | [] => Option.none
  | y :: ys => some (ys.foldl Nat.min y)

/-- papers.py `get_year`: loop over the priority fields, return the minimum
of the first field with any parsed year. -/
def getYearGo (paper : String → List String) : List String → Option Nat
  | [] => Option.none
  | f :: fs =>
    match fieldYears (paper f) with
    | [] => getYearGo paper fs
    | y :: ys => some (ys.foldl Nat.min y)

def get_year (paper : String → List String) : Option Nat :=
  getYearGo paper yearFields

/-- Spec side, following the claim's words: the earliest (minimum) valid
year among the values of the first field in priority order that yields any
valid year; absent if no field yields one. -/
def resolveYearSpec (paper : String → List String) : Option Nat :=
  match yearFields.find? (fun f => !(fieldYears (paper f)).isEmpty) with
  | some f => minList (fieldYears (paper f))
  | Option.none => Option.none

/-- The record of the spec's year example: year=["forthcoming"],
creation-date=["1998-05-01"]. -/
def yearExamplePaper : String → List String := fun f =>
  if f = "year" then ["forthcoming"]
  else if f = "creation-date" then ["1998-05-01"]
  else []

/-! ### Template splitting (redif.py: split, load; papers.py: load)

redif.py `split` is an imperative loop appending to the current group and
starting a new group at each selected element; `splitLoop` carries the
current group reversed.  redif.py `load` then drops the group before the
first "template-type" marker (`[1:]`), and papers.py `load` raises
"Empty series" when no templates remain (after checking mandatory fields
of each template).
-/

def splitLoop (sel : α → Bool) : List α → List α → List (List α)
  | [], cur => [cur.reverse]
  | el :: rest, cur =>
    if sel el then cur.reverse :: splitLoop sel rest [el]
    else splitLoop sel rest (el :: cur)

/-- redif.py `split(lst, sel)`. -/
def split (lst : List α) (sel : α → Bool) : List (List α) := splitLoop sel lst []

/-- Structural characterisation of `split`, used for proofs. -/
def splitF (sel : α → Bool) : List α → List (List α)
  | [] => [[]]
  | el :: rest =>
    match splitF sel rest with
    | g :: gs => if sel el then [] :: (el :: g) :: gs else (el :: g) :: gs
    | [] => [[el]]

def isTTpair (p : String × String) : Bool := p.1 = "template-type"

/-- redif.py `load`, final stage: split the flat pair list into templates at
each "template-type" pair, dropping everything before the first marker. -/
def loadTemplates (pairs : List (String × String)) : List (List (String × String)) :=
  (split pairs isTTpair).drop 1

/-- papers.py `load`, lines 44-48: first missing mandatory field of a
template, checked in the order handle, template-type. -/
def missingField (p : List (String × String)) : Option String :=
  if p.all (fun kv => kv.1 ≠ "handle") then some "handle is missing"
  else if p.all (fun kv => kv.1 ≠ "template-type") then some "template-type is missing"
  else Option.none

/-- papers.py `load`, lines 44-51: validate the parsed templates — raise on
the first template missing a mandatory field, then reject an empty series. -/
def validatePapers (papers : List (List (String × String))) :
    Except String (List (List (String × String))) :=
  match papers.findSome? missingField with
  | some msg => Except.error msg
  | Option.none =>
    if papers.length = 0 then Except.error "Empty series" else Except.ok papers

/-! ### Decoder (redif.py: decode)

Bytes are `List Nat` (each < 256), decoded text is a `List Nat` of code
points.  The candidate codecs are the Python standard codecs named by the
source; each is embedded as a strict partial decoding function.
-/

/-- windows-1252: 0x80-0x9F remapping table; 0x81, 0x8D, 0x8F, 0x90 and
0x9D are undefined and make strict decoding fail. -/
def w1252Byte (b : Nat) : Option Nat :=
  if b < 0x80 then some b
  else if 0xA0 ≤ b && b ≤ 0xFF then some b
  else
    match b with
    | 0x80 => some 0x20AC
    | 0x82 => some 0x201A
    | 0x83 => some 0x0192
    | 0x84 => some 0x201E
    | 0x85 => some 0x2026
    | 0x86 => some 0x2020
    | 0x87 => some 0x2021
    | 0x88 => some 0x02C6
    | 0x89 => some 0x2030
    | 0x8A => some 0x0160
    | 0x8B => some 0x2039
    | 0x8C => some 0x0152
    | 0x8E => some 0x017D
    | 0x91 => some 0x2018
    | 0x92 => some 0x2019
    | 0x93 => some 0x201C
    | 0x94 => some 0x201D
    | 0x95 => some 0x2022
    | 0x96 => some 0x2013
    | 0x97 => some 0x2014
    | 0x98 => some 0x02DC
    | 0x99 => some 0x2122
    | 0x9A => some 0x0161
    | 0x9B => some 0x203A
    | 0x9C => some 0x0153
    | 0x9E => some 0x017E
    | _ => Option.none

def decodeW1252 (bs : List Nat) : Option (List Nat) := bs.mapM w1252Byte

def decodeLatin1 (bs : List Nat) : Option (List Nat) :=
  if bs.all (fun b => b ≤ 0xFF) then some bs else Option.none

def isContByte (b : Nat) : Bool := 0x80 ≤ b && b ≤ 0xBF

/-- Second-byte range of a 3-byte UTF-8 sequence (rejects overlong forms
and surrogates, as Python's strict utf-8 codec does). -/
def utf8Second3 (b b2 : Nat) : Bool :=
  if b = 0xE0 then 0xA0 ≤ b2 && b2 ≤ 0xBF
  else if b = 0xED then 0x80 ≤ b2 && b2 ≤ 0x9F
  else isContByte b2

/-- Second-byte range of a 4-byte UTF-8 sequence. -/
def utf8Second4 (b b2 : Nat) : Bool :=
  if b = 0xF0 then 0x90 ≤ b2 && b2 ≤ 0xBF
  else if b = 0xF4 then 0x80 ≤ b2 && b2 ≤ 0x8F
  else isContByte b2

def decodeUtf8 : List Nat → Option (List Nat)
  | [] => some []
  | b :: rest =>
    if b ≤ 0x7F then
      (decodeUtf8 rest).map (fun t => b :: t)
    else if 0xC2 ≤ b && b ≤ 0xDF then
      match rest with
      | b2 :: rest2 =>
        if isContByte b2 then
          (decodeUtf8 rest2).map (fun t => ((b - 0xC0) * 0x40 + (b2 - 0x80)) :: t)
        else Option.none
      | [] => Option.none
    else if 0xE0 ≤ b && b ≤ 0xEF then
      match rest with
      | b2 :: b3 :: rest3 =>
        if utf8Second3 b b2 && isContByte b3 then
          (decodeUtf8 rest3).map
            (fun t => (((b - 0xE0) * 0x40 + (b2 - 0x80)) * 0x40 + (b3 - 0x80)) :: t)
        else Option.none
      | _ => Option.none
    else if 0xF0 ≤ b && b ≤ 0xF4 then
      match rest with
      | b2 :: b3 :: b4 :: rest4 =>
        if utf8Second4 b b2 && isContByte b3 && isContByte b4 then
          (decodeUtf8 rest4).map
            (fun t =>
              ((((b - 0xF0) * 0x40 + (b2 - 0x80)) * 0x40 + (b3 - 0x80)) * 0x40
                + (b4 - 0x80)) :: t)
        else Option.none
      | _ => Option.none
    else Option.none

def utf8Bom : List Nat := [0xEF, 0xBB, 0xBF]

/-- utf-8-sig: strip a leading UTF-8 BOM, then strict UTF-8. -/
def decodeUtf8Sig (bs : List Nat) : Option (List Nat) :=
  if bs.take 3 = utf8Bom then decodeUtf8 (bs.drop 3) else decodeUtf8 bs

/-- Group bytes into 16-bit units (big- or little-endian); fails on an odd
trailing byte as Python's strict utf-16 codec does. -/
def utf16Units (be : Bool) : List Nat → Option (List Nat)
  | [] => some []
  | b1 :: b2 :: rest =>
    if b1 ≤ 0xFF && b2 ≤ 0xFF then
      (utf16Units be rest).map
        (fun us => (if be then b1 * 0x100 + b2 else b2 * 0x100 + b1) :: us)
    else Option.none
  | [_] => Option.none

/-- Combine surrogate pairs; an unpaired surrogate fails. -/
def utf16Combine : List Nat → Option (List Nat)
  | [] => some []
  | u :: rest =>
    if 0xD800 ≤ u && u ≤ 0xDBFF then
      match rest with
      | u2 :: rest2 =>
        if 0xDC00 ≤ u2 && u2 ≤ 0xDFFF then
          (utf16Combine rest2).map
            (fun t => (0x10000 + (u - 0xD800) * 0x400 + (u2 - 0xDC00)) :: t)
        else Option.none
      | [] => Option.none
    else if 0xDC00 ≤ u && u ≤ 0xDFFF then Option.none
    else (utf16Combine rest).map (fun t => u :: t)

/-- Python's utf-16 codec: obey a BOM if present, else assume the native
(little-endian) byte order. -/
def decodeUtf16 (bs : List Nat) : Option (List Nat) :=
  if bs.take 2 = [0xFF, 0xFE] then (utf16Units false (bs.drop 2)).bind utf16Combine
  else if bs.take 2 = [0xFE, 0xFF] then (utf16Units true (bs.drop 2)).bind utf16Combine
  else (utf16Units false bs).bind utf16Combine

inductive Enc where
  | w1252
  | utf8
  | utf16
  | latin1
  | utf8sig
deriving DecidableEq

def decodeWith : Enc → List Nat → Option (List Nat)
  | Enc.w1252 => decodeW1252
  | Enc.utf8 => decodeUtf8
  | Enc.utf16 => decodeUtf16
  | Enc.latin1 => decodeLatin1
  | Enc.utf8sig => decodeUtf8Sig

def asciiLowerCp (c : Nat) : Nat := if 0x41 ≤ c && c ≤ 0x5A then c + 0x20 else c

def startsWithSeq : List Nat → List Nat → Bool
  | [], _ => true
  | _ :: _, [] => false
  | a :: pas, b :: bs => a = b && startsWithSeq pas bs

def containsSeq (pat : List Nat) : List Nat → Bool
  | [] => pat.isEmpty
  | l@(_ :: rest) => startsWithSeq pat l || containsSeq pat rest

def markerCps : List Nat := "template-type".data.map Char.toNat

/-- The inner `decode(encoding)` of redif.py `decode`: decode the bytes and
require the case-insensitive marker "template-type" in the result
(`rslt.lower().find('template-type') == -1` raises). -/
def tryDecode (e : Enc) (bs : List Nat) : Option (List Nat) :=
  match decodeWith e bs with
  | some txt => if containsSeq markerCps (txt.map asciiLowerCp) then some txt else Option.none
  | Option.none => Option.none

/-- The candidate list of redif.py `decode`: utf-8-sig is prepended when
the input starts with the UTF-8 byte-order mark. -/
def candidates (bs : List Nat) : List Enc :=
  if bs.take 3 = utf8Bom then
    [Enc.utf8sig, Enc.w1252, Enc.utf8, Enc.utf16, Enc.latin1]
  else [Enc.w1252, Enc.utf8, Enc.utf16, Enc.latin1]

def firstDecode (bs : List Nat) : List Enc → Option (List Nat)
  | [] => Option.none
  | e :: es =>
    match tryDecode e bs with
    | some t => some t
    | Option.none => firstDecode bs es

/-- redif.py `decode`: try the candidates in order (a bare `except` catches
both codec errors and the marker failure); `Option.none` models the final
`raise RuntimeError('Decoding Error')`. -/
def decode (bs : List Nat) : Option (List Nat) := firstDecode bs (candidates bs)

/-! ### Language resolution (papers.py: detect_language, lang_and, replace_paper)

`detect_language` wraps the external cld2 library and maps its "un"
(unknown) answer to None; it is modelled as an abstract
`detect : String → Option String` parameter.  `lang_and` and the
declared-field fallback of `replace_paper` (lines 130-132) are repo code
and embedded exactly.
-/

/-- Distinct elements (Python `set`; only the cardinality and the sole
element of a singleton are consumed, so the order is irrelevant). -/
def dedupOpt : List (Option String) → List (Option String)
  | [] => []
  | s :: rest => if s ∈ rest then dedupOpt rest else s :: dedupOpt rest

/-- papers.py `lang_and`: detect the language of each truthy text; if the
set of answers is a singleton and truthy, use it, else the default. -/
def lang_and (detect : String → Option String) (texts : List (Option String))
    (default : Option String) : Option String :=
  let langs := dedupOpt (((texts.filterMap id).filter (fun t => t ≠ "")).map detect)
  match langs with
  | [l] =>
    match l with
    | some s => if s ≠ "" then some s else default
    | Option.none => default
  | _ => default

/-- Python `str.lower()` (ASCII model, by code points). -/
def strLower (s : String) : String := String.mk (s.data.map Char.toLower)

/-- papers.py `replace_paper`, lines 130-132: lowercase the declared
"language" field (default "none"), keep it only when 2 characters long,
then resolve via `lang_and` on the sanitized title and abstract. -/
def resolveLanguage (detect : String → Option String) (title abstract : Option String)
    (langField : Option String) : Option String :=
  let declared := strLower (langField.getD "none")
  let declared2 := if declared.length = 2 then some declared else Option.none
  lang_and detect [title, abstract] declared2

/-- Claim side, following the claim's words: detect title and abstract
independently; if BOTH detections agree on one non-unknown code use it;
otherwise the declared 2-letter field; otherwise absent. -/
def claimResolveLanguage (detect : String → Option String) (title abstract : Option String)
    (langField : Option String) : Option String :=
  let declared := strLower (langField.getD "none")
  let declared2 := if declared.length = 2 then some declared else Option.none
  match title, abstract with
  | some t, some a =>
    match detect t, detect a with
    | some l1, some l2 => if l1 = l2 && l1 ≠ "" then some l1 else declared2
    | _, _ => declared2
  | _, _ => declared2

/-- Amended description of the code's rule: only present, non-empty texts
are detected, and a single present text suffices. -/
def amendedResolveLanguage (detect : String → Option String) (title abstract : Option String)
    (langField : Option String) : Option String :=
  let declared := strLower (langField.getD "none")
  let declared2 := if declared.length = 2 then some declared else Option.none
  match ([title, abstract].filterMap id).filter (fun t => t ≠ "") with
  | [] => declared2
  | [t] =>
    match detect t with
    | some l => if l ≠ "" then some l else declared2
    | Option.none => declared2
  | [t1, t2] =>
    if detect t1 = detect t2 then
      match detect t1 with
      | some l => if l ≠ "" then some l else declared2
      | Option.none => declared2
    else declared2
  | _ => declared2

/-! ### Batch orchestration (papers.py: update_papers_1, update_papers)

`load` is wrapped in `@silent` and `parallel` maps the worker over a batch;
both live in src/repec/misc.py, which is not part of the provided sources.
Modelled from the spec: `silent` turns a per-document exception into an
error value carrying the diagnostic text (`iserror` detects it), so the
outcome of fetching+parsing one URL is an abstract
`result : String → Except String α`; `parallel` runs the workers
concurrently but every database write is serialized under one lock and the
batch tally is the sum of the workers' boolean results, so the observable
batch outcome equals a sequential fold over the batch.
-/

/-- One listings row: `status` (0 = ok, 1 = pending, 2 = error) and the
diagnostic `error` column. -/
structure Listing where
  status : Nat
  diag : Option String
deriving DecidableEq

def setListing (db : String → Listing) (url : String) (l : Listing) : String → Listing :=
  fun u => if u = url then l else db u

/-- papers.py `update_papers_1`: on an error value set status 2 with the
diagnostic, else status 0 with the diagnostic cleared; returns
`not iserror(papers)`. -/
def update_papers_1 (result : String → Except String α) (db : String → Listing)
    (url : String) : (String → Listing) × Bool :=
  match result url with
  | Except.error e => (setListing db url (Listing.mk 2 (some e)), false)
  | Except.ok _ => (setListing db url (Listing.mk 0 Option.none), true)

/-- papers.py `update_papers`, one batch:
`bs = sum(parallel(worker, batch, ...))` with lock-serialized writes. -/
def processBatch (result : String → Except String α) (db : String → Listing) :
    List String → (String → Listing) × Nat
  | [] => (db, 0)
  | u :: rest =>
    let r := update_papers_1 result db u
    let acc := processBatch result r.1 rest
    (acc.1, (if r.2 then 1 else 0) + acc.2)

def isOkE : Except ε α → Bool
  | Except.ok _ => true
  | Except.error _ => false

/-- A concrete batch of 10 URLs for the 7-of-10 scenario of the spec. -/
def batchExample : List String :=
  ["u1", "u2", "u3", "u4", "u5", "u6", "u7", "u8", "u9", "u10"]

/-- A concrete per-URL outcome: transport failures on u3, u6, u9. -/
def resultExample : String → Except String Unit := fun u =>
  if u = "u3" || u = "u6" || u = "u9" then Except.error "connection timed out"
  else Except.ok ()

/-- All listings start out pending (status 1). -/
def dbExample : String → Listing := fun _ => Listing.mk 1 Option.none

/-! ### Sanitizer (sanitize.py)

`html2text` hands markup to lxml's external HTML5 parser; that call is the
abstract parameter `render` (parse as HTML5, inject spaces around block
elements, serialize to text).  Everything else is repo code, embedded
exactly.  Python values reaching `sanitize` are strings, None, or other
non-string objects (`type(text) != str` passes them through).
-/

inductive PyVal where
  | str : List Char → PyVal
  | none : PyVal
  | num : Int → PyVal
deriving DecidableEq

/-- sanitize.py `remove_cc`: strip `[\x00-\x08\x0b\x0c\x0e-\x1f\x7f\x80-\x9f]`. -/
def isCC (c : Char) : Bool :=
  c.toNat ≤ 0x08 || c.toNat = 0x0B || c.toNat = 0x0C ||
  (0x0E ≤ c.toNat && c.toNat ≤ 0x1F) || c.toNat = 0x7F ||
  (0x80 ≤ c.toNat && c.toNat ≤ 0x9F)

def remove_cc (s : List Char) : List Char := s.filter (fun c => !isCC c)

/-- ASCII `\s` (the inputs of interest are ASCII). -/
def isSpaceCh (c : Char) : Bool :=
  c = ' ' || c = '\t' || c = '\n' || c = '\r' || c.toNat = 0x0B || c.toNat = 0x0C

/-- The character class `[0-9a-f\s]` of `sanitize_entity` with `re.I`. -/
def isEntChar (c : Char) : Bool :=
  isDigit09 c || ('a' ≤ c && c ≤ 'f') || ('A' ≤ c && c ≤ 'F') || isSpaceCh c

/-- Match of `&#x?[0-9a-f\s]+;` (case-insensitive) right after a read `&`:
returns the whitespace-stripped replacement (without the leading `&`) and
the number of consumed characters.  The `x?` is deterministic because `x`
is not in the following class, and greedy `+` followed by `;` commits to
the maximal run because `;` is not in the class either. -/
def entityAt : List Char → Option (List Char × Nat)
  | '#' :: cs =>
    let xz :=
      match cs with
      | c :: _ => if c = 'x' || c = 'X' then [c] else []
      | [] => []
    let cs1 := cs.drop xz.length
    let run := cs1.takeWhile isEntChar
    if run.isEmpty then Option.none
    else
      match cs1.drop run.length with
      | ';' :: _ =>
        some ('#' :: (xz ++ run.filter (fun c => !isSpaceCh c) ++ [';']),
          1 + xz.length + run.length + 1)
      | _ => Option.none
  | _ => Option.none

/-- sanitize.py `sanitize_entity`: left-to-right, non-overlapping
`re.sub`, each match replaced by itself minus whitespace.  The fuel is the
input length; every step consumes at least one character, so the fuel
never runs out. -/
def sanitizeEntityGo : Nat → List Char → List Char
  | 0, l => l
  | _, [] => []
  | fuel + 1, c :: cs =>
    if c = '&' then
      match entityAt cs with
      | some (rep, k) => '&' :: rep ++ sanitizeEntityGo fuel (cs.drop k)
      | Option.none => '&' :: sanitizeEntityGo fuel cs
    else c :: sanitizeEntityGo fuel cs

def sanitize_entity (s : List Char) : List Char := sanitizeEntityGo s.length s

def lowerL (s : List Char) : List Char := s.map Char.toLower

def startsWithL : List Char → List Char → Bool
  | [], _ => true
  | _ :: _, [] => false
  | a :: pas, b :: bs => a = b && startsWithL pas bs

def containsL (pat : List Char) : List Char → Bool
  | [] => pat.isEmpty
  | l@(_ :: rest) => startsWithL pat l || containsL pat rest

def BLOCKTAGS : List (List Char) :=
  ["div", "p", "br", "li", "h1", "h2", "h3", "h4", "h5", "h6"].map String.data

def isLowerAlnum (c : Char) : Bool := isLowerAZ c || isDigit09 c

/-- Match of `&#?x?[0-9a-z]+;` right after a read `&` on lowered text.
Since `x` itself is in `[0-9a-z]`, the backtracking pattern `x?[0-9a-z]+;`
accepts exactly a nonempty `[0-9a-z]` run followed by `;`. -/
def entityRefAfterAmp (cs : List Char) : Bool :=
  let cs1 :=
    match cs with
    | '#' :: r => r
    | _ => cs
  let run := cs1.takeWhile isLowerAlnum
  !run.isEmpty &&
    (match cs1.drop run.length with
     | ';' :: _ => true
     | _ => false)

def hasEntityRef : List Char → Bool
  | [] => false
  | c :: cs => (c = '&' && entityRefAfterAmp cs) || hasEntityRef cs

/-- sanitize.py `ishtml`: a block-level tag, a closing/self-closing tag
marker, or an entity reference, all on the lowercased text. -/
def ishtml (s : List Char) : Bool :=
  let t := lowerL s
  BLOCKTAGS.any (fun b => containsL ('<' :: (b ++ ['>'])) t) ||
  containsL ['<', '/'] t || containsL ['/', '>'] t || hasEntityRef t

/-- Python `str.strip()` (ASCII whitespace model). -/
def stripWs (s : List Char) : List Char :=
  ((s.dropWhile isSpaceCh).reverse.dropWhile isSpaceCh).reverse

/-- `re.sub(r"\s+", " ", s)`: collapse every whitespace run to one space. -/
def collapseWs : List Char → List Char
  | [] => []
  | c :: cs =>
    if isSpaceCh c then
      match collapseWs cs with
      | ' ' :: ds => ' ' :: ds
      | ds => ' ' :: ds
    else c :: collapseWs cs

/-- sanitize.py `html2text`: non-markup text is collapsed directly;
markup goes through the external HTML5 parser (`render`), then is
collapsed the same way. -/
def html2text (render : List Char → List Char) (s : List Char) : List Char :=
  if ishtml s then collapseWs (stripWs (render s))
  else collapseWs (stripWs s)

/-- Python `\w` = `[a-zA-Z0-9_]` (ASCII model). -/
def isWordCh (c : Char) : Bool :=
  ('a' ≤ c && c ≤ 'z') || ('A' ≤ c && c ≤ 'Z') || isDigit09 c || c = '_'

/-- sanitize.py `isna`: dropping non-word characters and lowercasing
yields "na". -/
def isna (s : List Char) : Bool := lowerL (s.filter isWordCh) = ['n', 'a']

/-- sanitize.py `isvalid`: false iff every character is a non-word
character or a digit (`re.match(r"^[\W0-9]*$", token)`; a final newline is
itself in `[\W0-9]`, so plain "all" is exact). -/
def isvalid (s : List Char) : Bool := !(s.all (fun c => !isWordCh c || isDigit09 c))

/-- sanitize.py `sanitize`: non-strings pass through; strings are cleaned
and rejected to None when they are an N/A token or have no word
character. -/
def sanitize (render : List Char → List Char) : PyVal → PyVal
  | PyVal.str s =>
    let t := html2text render (sanitize_entity (remove_cc s))
    if isna t || !isvalid t then PyVal.none else PyVal.str t
  | v => v

/-! ### Email extraction (sanitize.py: EMAIL, sanitize_email)

The compiled pattern is `['a-z0-9._-]+@[a-z0-9._-]+.[a-z]+` — note the
UNESCAPED dot, which matches any character except a newline.
-/

/-- `['a-z0-9._-]` (the local-part class, with apostrophe). -/
def emailA (c : Char) : Bool :=
  c.toNat = 39 || isLowerAZ c || isDigit09 c || c = '.' || c = '_' || c = '-'

/-- `[a-z0-9._-]` (the domain class, no apostrophe). -/
def emailB (c : Char) : Bool :=
  isLowerAZ c || isDigit09 c || c = '.' || c = '_' || c = '-'

/-- Backtracking tail of the pattern after `...@`: try the greedy
`[a-z0-9._-]+` length from `j` down to 1; after it the unescaped `.`
consumes any non-newline character and `[a-z]+` takes the maximal
nonempty lowercase run. -/
def emailTail (u cs2 : List Char) : Nat → Option (List Char)
  | 0 => Option.none
  | j + 1 =>
    match cs2.drop (j + 1) with
    | c :: cs3 =>
      if c ≠ '\n' && !(cs3.takeWhile isLowerAZ).isEmpty then
        some (u ++ '@' :: (cs2.take (j + 1) ++ c :: cs3.takeWhile isLowerAZ))
      else emailTail u cs2 j
    | [] => emailTail u cs2 j

/-- Match of the EMAIL pattern anchored at the head of `cs`.  The leading
`['a-z0-9._-]+` must be the maximal run because `@` is not in the class. -/
def matchEmailAt (cs : List Char) : Option (List Char) :=
  if (cs.takeWhile emailA).isEmpty then Option.none
  else
    match cs.drop (cs.takeWhile emailA).length with
    | '@' :: cs2 => emailTail (cs.takeWhile emailA) cs2 (cs2.takeWhile emailB).length
    | _ => Option.none

/-- `EMAIL.search`: leftmost position with a match. -/
def emailSearch : List Char → Option (List Char)
  | [] => Option.none
  | l@(_ :: rest) =>
    match matchEmailAt l with
    | some m => some m
    | Option.none => emailSearch rest

/-- sanitize.py `sanitize_email`: sanitize, pass non-strings through, then
search the lowercased result. -/
def sanitize_email (render : List Char → List Char) (v : PyVal) : PyVal :=
  match sanitize render v with
  | PyVal.str s =>
    match emailSearch (lowerL s) with
    | some m => PyVal.str m
    | Option.none => PyVal.none
  | w => w

/-- A substring decomposition witnessing a match of the actual EMAIL
pattern (`['a-z0-9._-]+@[a-z0-9._-]+.[a-z]+`, unescaped dot). -/
def emailShape (m : List Char) : Prop :=
  ∃ u v c w, m = u ++ '@' :: (v ++ c :: w) ∧
    u ≠ [] ∧ (∀ x ∈ u, emailA x) ∧
    v ≠ [] ∧ (∀ x ∈ v, emailB x) ∧
    c ≠ '\n' ∧ w ≠ [] ∧ (∀ x ∈ w, isLowerAZ x)

/-- A match of the actual EMAIL pattern starting at the head of `cs`. -/
def emailMatchableAt (cs : List Char) : Prop :=
  ∃ m rest, cs = m ++ rest ∧ emailShape m

/-! Claim side: the claim's conservative pattern `[\w.-]+@[\w.-]+\.[a-z]+`
(with an ESCAPED dot).  Only the existence of a match is needed, checked
by brute force over all split points. -/

def claimTokCh (c : Char) : Bool := isWordCh c || c = '.' || c = '-'

def claimEmailAfterAt (cs2 : List Char) : Bool :=
  (List.range cs2.length).any (fun k2 =>
    (cs2.take (k2 + 1)).all claimTokCh &&
      (match cs2.drop (k2 + 1) with
       | '.' :: c :: _ => isLowerAZ c
       | _ => false))

def claimEmailStartsAt (cs : List Char) : Bool :=
  (List.range cs.length).any (fun k1 =>
    (cs.take (k1 + 1)).all claimTokCh &&
      (match cs.drop (k1 + 1) with
       | '@' :: cs2 => claimEmailAfterAt cs2
       | _ => false))

/-- Does the claim's pattern `[\w.-]+@[\w.-]+\.[a-z]+` match anywhere? -/
def claimEmailFound : List Char → Bool
  | [] => false
  | l@(_ :: rest) => claimEmailStartsAt l || claimEmailFound rest

/-!
## Theorems
-/

/-! ### JEL helper lemmas -/

theorem mem_insertSorted (x s : String) (l : List String) :
    x ∈ insertSorted s l ↔ x = s ∨ x ∈ l := by
  induction l with
  | nil => simp [insertSorted]
  | cons t ts ih =>
    unfold insertSorted
    by_cases h : strLt t s
    · rw [if_pos h]
      simp only [List.mem_cons, ih]
      tauto
    · rw [if_neg h]
      simp only [List.mem_cons]

theorem sortStrings_cons (s : String) (l : List String) :
    sortStrings (s :: l) = insertSorted s (sortStrings l) := rfl

theorem mem_sortStrings (x : String) (l : List String) :
    x ∈ sortStrings l ↔ x ∈ l := by
  induction l with
  | nil => simp [sortStrings]
  | cons t ts ih =>
    rw [sortStrings_cons, mem_insertSorted]
    simp [ih]

theorem mem_dedupStr (x : String) (l : List String) (h : x ∈ dedupStr l) : x ∈ l := by
  induction l with
  | nil => simp [dedupStr] at h
  | cons t ts ih =>
    unfold dedupStr at h
    by_cases hm : t ∈ ts
    · rw [if_pos hm] at h
      exact List.mem_cons_of_mem t (ih h)
    · rw [if_neg hm] at h
      rcases List.mem_cons.mp h with h1 | h2
      · exact h1 ▸ List.mem_cons_self t ts
      · exact List.mem_cons_of_mem t (ih h2)

theorem filterjel_mem (t c : String) (alljel : List String)
    (h : filterjel t alljel = some c) : c ∈ alljel := by
  unfold filterjel at h
  by_cases h1 : t ∈ alljel
  · rw [if_pos h1] at h
    exact (Option.some_inj.mp h) ▸ h1
  · rw [if_neg h1] at h
    by_cases h2 : strTake t 2 ∈ alljel
    · rw [if_pos h2] at h
      exact (Option.some_inj.mp h) ▸ h2
    · rw [if_neg h2] at h
      exact absurd h (Option.noConfusion)

theorem parsejel_mem (jel c : String) (alljel : List String)
    (h : c ∈ parsejel jel alljel) : c ∈ alljel := by
  unfold parsejel at h
  by_cases hb :
      sortStrings (dedupStr ((((jelTokens jel).map (fun c => filterjel c alljel)).filterMap
        id).filter (fun c => c ≠ ""))) = ["R00", "Z0"]
  · simp only [hb, if_pos] at h
    simp at h
  · simp only [hb, if_neg, if_false] at h
    rw [mem_sortStrings] at h
    have h2 := mem_dedupStr _ _ h
    have h3 := List.mem_of_mem_filter h2
    rcases List.mem_filterMap.mp h3 with ⟨o, ho, hoc⟩
    rcases List.mem_map.mp ho with ⟨t, _, hto⟩
    exact filterjel_mem t c alljel (hto.symm ▸ (hoc : id o = some c))

/-! ### Claim theorems: JEL (C1, C8) -/

/-- Claim C1 counterexample: with the official table ["G1", "G2"] (which
contains G1 and G2), `parsejel "G1, g-2"` yields ["G1"], not the claimed
["G1", "G2"] — the separator-collapsing substitution is case-sensitive and
runs before uppercasing, so "g-2" splits into the dropped tokens "G" and
"2". -/
theorem repec_c1_counterexample :
    parsejel "G1, g-2" ["G1", "G2"] = ["G1"] ∧
      parsejel "G1, g-2" ["G1", "G2"] ≠ ["G1", "G2"] := by
  constructor
  · decide
  · decide

/-- Claim C1 (amended): for every official JEL reference table containing
the codes G1 and G2, normalization of the raw classification string
"G1, g-2" yields exactly ["G1"]. -/
theorem repec_c1_amended (alljel : List String) (h1 : "G1" ∈ alljel)
    (_h2 : "G2" ∈ alljel) : parsejel "G1, g-2" alljel = ["G1"] := by
  have ht : jelTokens "G1, g-2" = ["G1"] := by decide
  have hf : filterjel "G1" alljel = some "G1" := by
    unfold filterjel
    rw [if_pos h1]
  unfold parsejel
  rw [ht]
  simp only [List.map_cons, List.map_nil, hf]
  decide

/-- Witness for C1 (amended), at the concrete table ["G1", "G2"]. -/
theorem repec_c1_witness :
    "G1" ∈ (["G1", "G2"] : List String) ∧ "G2" ∈ (["G1", "G2"] : List String) ∧
      parsejel "G1, g-2" ["G1", "G2"] = ["G1"] :=
  ⟨by decide, by decide, repec_c1_amended ["G1", "G2"] (by decide) (by decide)⟩

/-- Claim C8: every JEL code persisted for a paper is a member of the
official reference table after normalization — `filterjel` keeps a token
only if it is official or replaces it by its official 2-character prefix,
and drops it otherwise. -/
theorem repec_c8_jel_official (record : String → Option (List String))
    (alljel : List String) (c : String) (h : c ∈ persistedJel record alljel) :
    c ∈ alljel := by
  unfold persistedJel at h
  cases hr : record "classification-jel" with
  | none =>
    rw [hr] at h
    simp at h
  | some l =>
    cases l with
    | nil =>
      rw [hr] at h
      simp at h
    | cons v vs =>
      rw [hr] at h
      exact parsejel_mem v c alljel h

/-- Witness for C8, at the end-to-end example of the spec: a record with
classification-jel "G1 G2" against a table containing G1 but not G2
persists exactly the official code G1. -/
theorem repec_c8_witness :
    "G1" ∈ persistedJel
        (fun f => if f = "classification-jel" then some ["G1 G2"] else Option.none)
        ["G1"] ∧
      "G1" ∈ (["G1"] : List String) :=
  ⟨by decide,
    repec_c8_jel_official
      (fun f => if f = "classification-jel" then some ["G1 G2"] else Option.none)
      ["G1"] "G1" (by decide)⟩

/-! ### Claim theorems: year resolution (C6) -/

theorem getYearGo_eq_spec (paper : String → List String) (fs : List String) :
    getYearGo paper fs =
      match fs.find? (fun f => !(fieldYears (paper f)).isEmpty) with
      | some f => minList (fieldYears (paper f))
      | Option.none => Option.none := by
  induction fs with
  | nil => rfl
  | cons f fs ih =>
    unfold getYearGo
    cases hf : fieldYears (paper f) with
    | nil =>
      rw [ih]
      simp [List.find?, hf]
    | cons y ys =>
      simp [List.find?, hf, minList]

/-- Claim C6: year resolution scans "year", "creation-date",
"revision-date" in priority order, extracting 4-digit runs not preceded by
a digit and discarding "0000"; it returns the minimum valid year of the
first field yielding any, absent otherwise; in particular
year=["forthcoming"], creation-date=["1998-05-01"] resolves to 1998. -/
theorem repec_c6_year :
    get_year yearExamplePaper = some 1998 ∧
      ∀ paper : String → List String, get_year paper = resolveYearSpec paper := by
  constructor
  · decide
  · intro paper
    unfold get_year resolveYearSpec
    exact getYearGo_eq_spec paper yearFields

/-! ### Template splitting lemmas (C5) -/

theorem splitF_ne_nil (sel : α → Bool) (lst : List α) : splitF sel lst ≠ [] := by
  cases lst with
  | nil => simp [splitF]
  | cons el rest =>
    unfold splitF
    cases h : splitF sel rest with
    | nil => simp
    | cons g gs =>
      by_cases hs : sel el <;> simp [hs]

theorem splitLoop_eq (sel : α → Bool) (lst : List α) : ∀ cur : List α,
    splitLoop sel lst cur =
      match splitF sel lst with
      | g :: gs => (cur.reverse ++ g) :: gs
      | [] => [cur.reverse] := by
  induction lst with
  | nil =>
    intro cur
    simp [splitLoop, splitF]
  | cons el rest ih =>
    intro cur
    cases h : splitF sel rest with
    | nil => exact absurd h (splitF_ne_nil sel rest)
    | cons g gs =>
      by_cases hs : sel el
      · simp only [splitLoop, hs, if_pos, ih, h, splitF, List.reverse_cons,
          List.reverse_nil, List.nil_append, List.append_nil, List.singleton_append]
      · simp only [splitLoop, hs, if_neg, Bool.false_eq_true, if_false, ih, h, splitF,
          List.reverse_cons, List.append_assoc, List.singleton_append]

theorem split_eq_splitF (lst : List α) (sel : α → Bool) : split lst sel = splitF sel lst := by
  unfold split
  rw [splitLoop_eq]
  cases h : splitF sel lst with
  | nil => exact absurd h (splitF_ne_nil sel lst)
  | cons g gs => simp

theorem splitF_join (sel : α → Bool) (lst : List α) : (splitF sel lst).flatten = lst := by
  induction lst with
  | nil => simp [splitF]
  | cons el rest ih =>
    unfold splitF
    cases h : splitF sel rest with
    | nil => exact absurd h (splitF_ne_nil sel rest)
    | cons g gs =>
      rw [h] at ih
      by_cases hs : sel el <;> simp_all

theorem splitF_head (sel : α → Bool) (lst : List α) :
    ∃ gs, splitF sel lst = (lst.takeWhile (fun a => !sel a)) :: gs := by
  induction lst with
  | nil => exact ⟨[], rfl⟩
  | cons el rest ih =>
    rcases ih with ⟨gs0, hg⟩
    unfold splitF
    rw [hg]
    by_cases hs : sel el
    · refine ⟨(el :: rest.takeWhile (fun a => !sel a)) :: gs0, ?_⟩
      simp [hs, List.takeWhile_cons]
    · refine ⟨gs0, ?_⟩
      simp [hs, List.takeWhile_cons]

theorem splitF_tail_shape (sel : α → Bool) (lst : List α) :
    ∀ t ∈ (splitF sel lst).tail,
      ∃ a ts, t = a :: ts ∧ sel a = true ∧ ∀ q ∈ ts, sel q = false := by
  induction lst with
  | nil =>
    intro t ht
    simp [splitF] at ht
  | cons el rest ih =>
    intro t ht
    unfold splitF at ht
    cases h : splitF sel rest with
    | nil => exact absurd h (splitF_ne_nil sel rest)
    | cons g gs =>
      rw [h] at ht ih
      by_cases hs : sel el
      · simp only [hs, if_pos, List.tail_cons] at ht
        rcases List.mem_cons.mp ht with h1 | h2
        · subst h1
          refine ⟨el, g, rfl, hs, ?_⟩
          rcases splitF_head sel rest with ⟨gs2, hh⟩
          rw [hh] at h
          have hg : g = rest.takeWhile (fun a => !sel a) := (List.cons.injEq _ _ _ _ ▸ h).1.symm
          intro q hq
          rw [hg] at hq
          have := List.mem_takeWhile_imp hq
          simpa using this
        · exact ih t h2
      · simp only [hs, Bool.false_eq_true, if_false, List.tail_cons] at ht
        exact ih t ht

theorem splitF_length (sel : α → Bool) (lst : List α) :
    (splitF sel lst).length = (lst.filter sel).length + 1 := by
  induction lst with
  | nil => simp [splitF]
  | cons el rest ih =>
    unfold splitF
    cases h : splitF sel rest with
    | nil => exact absurd h (splitF_ne_nil sel rest)
    | cons g gs =>
      rw [h] at ih
      by_cases hs : sel el <;> simp_all [List.filter_cons]

theorem loadTemplates_eq_tail (pairs : List (String × String)) :
    loadTemplates pairs = (splitF isTTpair pairs).tail := by
  unfold loadTemplates
  rw [split_eq_splitF, List.drop_one]

/-- Claim C5: parsing splits the flat pair sequence into templates at every
"template-type" pair (each template starts with a marker and contains no
other marker, and there are as many templates as markers), drops all pairs
before the first marker, and a document with zero markers yields zero
templates, rejected as "Empty series". -/
theorem repec_c5_templates (pairs : List (String × String)) :
    (loadTemplates pairs).flatten = pairs.dropWhile (fun p => !isTTpair p) ∧
      (∀ t ∈ loadTemplates pairs,
        ∃ a ts, t = a :: ts ∧ isTTpair a = true ∧ ∀ q ∈ ts, isTTpair q = false) ∧
      (loadTemplates pairs).length = (pairs.filter isTTpair).length ∧
      ((pairs.filter isTTpair).length = 0 →
        loadTemplates pairs = [] ∧
          validatePapers (loadTemplates pairs) = Except.error "Empty series") := by
  have htail := loadTemplates_eq_tail pairs
  rcases splitF_head isTTpair pairs with ⟨gs, hh⟩
  have hjoin := splitF_join isTTpair pairs
  refine ⟨?_, ?_, ?_, ?_⟩
  · rw [htail, hh]
    rw [hh] at hjoin
    simp only [List.flatten_cons] at hjoin
    have hsplit := List.takeWhile_append_dropWhile (p := fun p => !isTTpair p) (l := pairs)
    rw [List.tail_cons]
    have := hjoin.trans hsplit.symm
    exact List.append_cancel_left this
  · rw [htail]
    exact splitF_tail_shape isTTpair pairs
  · rw [htail, hh, List.tail_cons]
    have := splitF_length isTTpair pairs
    rw [hh] at this
    simpa using this
  · intro hz
    have hlen : (loadTemplates pairs).length = 0 := by
      rw [htail, hh, List.tail_cons]
      have := splitF_length isTTpair pairs
      rw [hh] at this
      simp at this
      omega
    have hnil : loadTemplates pairs = [] := List.length_eq_zero.mp hlen
    exact ⟨hnil, by rw [hnil]; rfl⟩

/-- Witness for C5, at a concrete marker-free pair list. -/
theorem repec_c5_witness :
    loadTemplates [("handle", "x"), ("title", "y")] = [] ∧
      validatePapers (loadTemplates [("handle", "x"), ("title", "y")]) =
        Except.error "Empty series" :=
  (repec_c5_templates [("handle", "x"), ("title", "y")]).2.2.2 (by decide)

/-! ### Decoder lemmas (C4) -/

theorem firstDecode_eq_none_iff (bs : List Nat) (es : List Enc) :
    firstDecode bs es = Option.none ↔ ∀ e ∈ es, tryDecode e bs = Option.none := by
  induction es with
  | nil => simp [firstDecode]
  | cons e es ih =>
    unfold firstDecode
    cases h : tryDecode e bs with
    | some t => simp [h]
    | none => simp [h, ih]

theorem firstDecode_some (bs : List Nat) (es : List Enc) (txt : List Nat)
    (h : firstDecode bs es = some txt) :
    ∃ pre e post, es = pre ++ e :: post ∧ tryDecode e bs = some txt ∧
      ∀ e2 ∈ pre, tryDecode e2 bs = Option.none := by
  induction es with
  | nil => exact absurd h (by simp [firstDecode])
  | cons e es ih =>
    unfold firstDecode at h
    cases ht : tryDecode e bs with
    | some t =>
      rw [ht] at h
      refine ⟨[], e, es, rfl, ?_, by simp⟩
      simpa using ht ▸ h
    | none =>
      rw [ht] at h
      rcases ih h with ⟨pre, e1, post, hes, he1, hpre⟩
      refine ⟨e :: pre, e1, post, by rw [hes]; rfl, he1, ?_⟩
      intro e2 he2
      rcases List.mem_cons.mp he2 with h1 | h2
      · exact h1 ▸ ht
      · exact hpre e2 h2

/-- Claim C4: decode fails exactly when no candidate encoding both decodes
the bytes and yields text containing the case-insensitive marker
"template-type"; the candidates are, in order, windows-1252, UTF-8,
UTF-16, latin-1, with BOM-aware UTF-8 prepended when the input starts with
the UTF-8 BOM, and the first candidate that decodes and passes the marker
check wins. -/
theorem repec_c4_decode (bs : List Nat) :
    (candidates bs =
      if bs.take 3 = utf8Bom then
        [Enc.utf8sig, Enc.w1252, Enc.utf8, Enc.utf16, Enc.latin1]
      else [Enc.w1252, Enc.utf8, Enc.utf16, Enc.latin1]) ∧
      (decode bs = Option.none ↔ ∀ e ∈ candidates bs, tryDecode e bs = Option.none) ∧
      (∀ txt, decode bs = some txt →
        ∃ pre e post, candidates bs = pre ++ e :: post ∧ tryDecode e bs = some txt ∧
          ∀ e2 ∈ pre, tryDecode e2 bs = Option.none) :=
  ⟨rfl, firstDecode_eq_none_iff bs (candidates bs),
    fun txt h => firstDecode_some bs (candidates bs) txt h⟩

/-- Witness for C4, at concrete ASCII bytes containing the marker (decoded
by the first candidate, windows-1252). -/
theorem repec_c4_witness :
    ∃ pre e post,
      candidates ("Template-Type: x".data.map Char.toNat) = pre ++ e :: post ∧
        tryDecode e ("Template-Type: x".data.map Char.toNat) =
          some ("Template-Type: x".data.map Char.toNat) ∧
        ∀ e2 ∈ pre, tryDecode e2 ("Template-Type: x".data.map Char.toNat) = Option.none :=
  (repec_c4_decode ("Template-Type: x".data.map Char.toNat)).2.2
    ("Template-Type: x".data.map Char.toNat) (by decide)

/-! ### Batch orchestration lemmas (C9) -/

theorem processBatch_tally (result : String → Except String α) (batch : List String) :
    ∀ db, (processBatch result db batch).2 =
      (batch.filter (fun u => isOkE (result u))).length := by
  induction batch with
  | nil => intro db; rfl
  | cons u rest ih =>
    intro db
    unfold processBatch update_papers_1
    cases hr : result u with
    | error e => simp [hr, ih, List.filter_cons, isOkE]
    | ok a => simp [hr, ih, List.filter_cons, isOkE, Nat.add_comm]

theorem processBatch_not_mem (result : String → Except String α) (batch : List String)
    (u : String) (hu : u ∉ batch) :
    ∀ db, (processBatch result db batch).1 u = db u := by
  induction batch with
  | nil => intro db; rfl
  | cons v rest ih =>
    intro db
    have hne : u ≠ v := fun h => hu (h ▸ List.mem_cons_self v rest)
    have hnr : u ∉ rest := fun h => hu (List.mem_cons_of_mem v h)
    unfold processBatch update_papers_1
    cases hr : result v <;>
      simp [ih hnr, setListing, hne]

theorem processBatch_mem (result : String → Except String α) (batch : List String)
    (u : String) (hu : u ∈ batch) :
    ∀ db, (processBatch result db batch).1 u =
      match result u with
      | Except.error e => Listing.mk 2 (some e)
      | Except.ok _ => Listing.mk 0 Option.none := by
  induction batch with
  | nil => exact absurd hu (List.not_mem_nil u)
  | cons v rest ih =>
    intro db
    by_cases hm : u ∈ rest
    · unfold processBatch
      exact ih hm _
    · have huv : u = v := by
        rcases List.mem_cons.mp hu with h1 | h2
        · exact h1
        · exact absurd h2 hm
      subst huv
      unfold processBatch update_papers_1
      cases hr : result u <;>
        simp [processBatch_not_mem result rest u hm, setListing, hr]

/-- Claim C9: per-document failures never abort a batch — the batch tally
counts exactly the successful documents, every failed URL's listing row
ends with status 2 and the recorded diagnostic, every successful URL's row
ends with status 0 and the diagnostic cleared, and rows outside the batch
are untouched. -/
theorem repec_c9_batch (result : String → Except String α) (db : String → Listing)
    (batch : List String) :
    (processBatch result db batch).2 =
        (batch.filter (fun u => isOkE (result u))).length ∧
      (∀ u ∈ batch, ∀ e, result u = Except.error e →
        (processBatch result db batch).1 u = Listing.mk 2 (some e)) ∧
      (∀ u ∈ batch, ∀ a, result u = Except.ok a →
        (processBatch result db batch).1 u = Listing.mk 0 Option.none) ∧
      (∀ u, u ∉ batch → (processBatch result db batch).1 u = db u) := by
  refine ⟨processBatch_tally result batch db, ?_, ?_, ?_⟩
  · intro u hu e he
    rw [processBatch_mem result batch u hu db, he]
  · intro u hu a ha
    rw [processBatch_mem result batch u hu db, ha]
  · intro u hu
    exact processBatch_not_mem result batch u hu db

/-- Witness for C9: in the concrete 10-URL batch with 3 transport failures,
the tally is 7, a failed row ends in status 2 with the diagnostic, a
successful row ends in status 0 with the diagnostic cleared, and a URL
outside the batch keeps its pending row. -/
theorem repec_c9_witness :
    (processBatch resultExample dbExample batchExample).2 = 7 ∧
      (processBatch resultExample dbExample batchExample).1 "u3" =
        Listing.mk 2 (some "connection timed out") ∧
      (processBatch resultExample dbExample batchExample).1 "u1" =
        Listing.mk 0 Option.none ∧
      (processBatch resultExample dbExample batchExample).1 "u11" =
        Listing.mk 1 Option.none := by
  have h := repec_c9_batch resultExample dbExample batchExample
  refine ⟨?_, ?_, ?_, ?_⟩
  · rw [h.1]
    decide
  · exact h.2.1 "u3" (by decide) "connection timed out" rfl
  · exact h.2.2.1 "u1" (by decide) () rfl
  · exact h.2.2.2 "u11" (by decide)

/-! ### Language resolution lemmas (C3) -/

theorem dedupOpt_pair_self (x : Option String) : dedupOpt [x, x] = [x] := by
  simp [dedupOpt]

theorem dedupOpt_pair_ne (x y : Option String) (h : x ≠ y) : dedupOpt [x, y] = [x, y] := by
  simp [dedupOpt, h]

theorem lang_and_pair (detect : String → Option String) (title abstract : Option String)
    (d : Option String) :
    lang_and detect [title, abstract] d =
      match ([title, abstract].filterMap id).filter (fun t => t ≠ "") with
      | [] => d
      | [t] =>
        match detect t with
        | some l => if l ≠ "" then some l else d
        | Option.none => d
      | [t1, t2] =>
        if detect t1 = detect t2 then
          match detect t1 with
          | some l => if l ≠ "" then some l else d
          | Option.none => d
        else d
      | _ => d := by
  cases title with
  | none =>
    cases abstract with
    | none => rfl
    | some a =>
      by_cases ha : a = ""
      · have hP : (([Option.none, some a].filterMap id).filter (fun t => t ≠ "")) =
            ([] : List String) := by simp [ha]
        unfold lang_and
        rw [hP]
        rfl
      · have hP : (([Option.none, some a].filterMap id).filter (fun t => t ≠ "")) = [a] := by
          simp [ha]
        unfold lang_and
        rw [hP]
        cases detect a <;> rfl
  | some t =>
    cases abstract with
    | none =>
      by_cases ht : t = ""
      · have hP : ((([some t, Option.none] : List (Option String)).filterMap id).filter
            (fun t => t ≠ "")) = ([] : List String) := by simp [ht]
        unfold lang_and
        rw [hP]
        rfl
      · have hP : ((([some t, Option.none] : List (Option String)).filterMap id).filter
            (fun t => t ≠ "")) = [t] := by simp [ht]
        unfold lang_and
        rw [hP]
        cases detect t <;> rfl
    | some a =>
      by_cases ht : t = "" <;> by_cases ha : a = ""
      · have hP : (([some t, some a].filterMap id).filter (fun t => t ≠ "")) =
            ([] : List String) := by simp [ht, ha]
        unfold lang_and
        rw [hP]
        rfl
      · have hP : (([some t, some a].filterMap id).filter (fun t => t ≠ "")) = [a] := by
          simp [ht, ha]
        unfold lang_and
        rw [hP]
        cases detect a <;> rfl
      · have hP : (([some t, some a].filterMap id).filter (fun t => t ≠ "")) = [t] := by
          simp [ht, ha]
        unfold lang_and
        rw [hP]
        cases detect t <;> rfl
      · have hP : (([some t, some a].filterMap id).filter (fun t => t ≠ "")) = [t, a] := by
          simp [ht, ha]
        unfold lang_and
        rw [hP]
        dsimp only
        by_cases he : detect t = detect a
        · rw [if_pos he]
          simp only [List.map_cons, List.map_nil, he, dedupOpt_pair_self]
        · rw [if_neg he]
          simp only [List.map_cons, List.map_nil, dedupOpt_pair_ne _ _ he]

/-! ### Email matcher lemmas (C7) -/

theorem drop_takeWhile_length (p : α → Bool) (l : List α) :
    l.drop (l.takeWhile p).length = l.dropWhile p := by
  nth_rewrite 2 [← List.takeWhile_append_dropWhile (p := p) (l := l)]
  exact List.drop_left _ _

theorem takeWhile_eq_of_prefix (p : α → Bool) (l1 : List α) (a : α) (l2 : List α)
    (h1 : ∀ x ∈ l1, p x = true) (h2 : p a = false) :
    (l1 ++ a :: l2).takeWhile p = l1 := by
  induction l1 with
  | nil => simp [List.takeWhile_cons, h2]
  | cons b bs ih =>
    have hb : p b = true := h1 b (List.mem_cons_self b bs)
    simp only [List.cons_append, List.takeWhile_cons, hb, if_pos]
    rw [ih (fun x hx => h1 x (List.mem_cons_of_mem b hx))]

theorem takeWhile_append_all (p : α → Bool) (v z : List α) (h : ∀ x ∈ v, p x = true) :
    (v ++ z).takeWhile p = v ++ z.takeWhile p := by
  induction v with
  | nil => simp
  | cons b bs ih =>
    have hb : p b = true := h b (List.mem_cons_self b bs)
    simp only [List.cons_append, List.takeWhile_cons, hb, if_pos]
    rw [ih (fun x hx => h x (List.mem_cons_of_mem b hx))]

theorem all_take_of_le_takeWhile (p : α → Bool) (l : List α) (n : Nat)
    (hn : n ≤ (l.takeWhile p).length) : ∀ x ∈ l.take n, p x = true := by
  induction l generalizing n with
  | nil => simp
  | cons a as ih =>
    cases n with
    | zero => simp
    | succ n =>
      by_cases hp : p a
      · rw [List.takeWhile_cons, if_pos hp, List.length_cons] at hn
        intro x hx
        rw [List.take_succ_cons] at hx
        rcases List.mem_cons.mp hx with h1 | h2
        · exact h1 ▸ hp
        · exact ih n (Nat.le_of_succ_le_succ hn) x h2
      · rw [List.takeWhile_cons, if_neg hp] at hn
        simp at hn

theorem emailTail_sound (u cs2 : List Char) (hu1 : u ≠ [])
    (hu2 : ∀ x ∈ u, emailA x = true) :
    ∀ j, j ≤ (cs2.takeWhile emailB).length → ∀ m, emailTail u cs2 j = some m →
      ∃ rest2, u ++ '@' :: cs2 = m ++ rest2 ∧ emailShape m := by
  intro j
  induction j with
  | zero =>
    intro _ m h
    exact absurd h (by simp [emailTail])
  | succ j ih =>
    intro hj m h
    unfold emailTail at h
    split at h
    case h_2 => exact ih (Nat.le_of_succ_le hj) m h
    case h_1 c cs3 hd =>
      split at h
      case isFalse => exact ih (Nat.le_of_succ_le hj) m h
      case isTrue hc =>
        have hm := Option.some_inj.mp h
        have hcn : c ≠ '\n' := by
          intro he
          rw [he] at hc
          simp at hc
        have hw : cs3.takeWhile isLowerAZ ≠ [] := by
          intro he
          rw [he] at hc
          simp at hc
        have hlen : j + 1 < cs2.length := by
          have := congrArg List.length hd
          rw [List.length_drop, List.length_cons] at this
          omega
        have hv1 : cs2.take (j + 1) ≠ [] := by
          intro he
          have h5 := congrArg List.length he
          rw [List.length_take, List.length_nil] at h5
          omega
        have hv2 : ∀ x ∈ cs2.take (j + 1), emailB x = true :=
          all_take_of_le_takeWhile emailB cs2 (j + 1) hj
        refine ⟨cs3.dropWhile isLowerAZ, ?_, ?_⟩
        · have h1 : cs2 = cs2.take (j + 1) ++ c :: cs3 := by
            conv_lhs => rw [← List.take_append_drop (j + 1) cs2]
            rw [hd]
          have h2 : cs3 = cs3.takeWhile isLowerAZ ++ cs3.dropWhile isLowerAZ :=
            (List.takeWhile_append_dropWhile isLowerAZ cs3).symm
          rw [← hm]
          conv_lhs => rw [h1]
          conv_lhs => rw [h2]
          simp [List.append_assoc]
        · exact ⟨u, cs2.take (j + 1), c, cs3.takeWhile isLowerAZ, hm.symm, hu1, hu2,
            hv1, hv2, hcn, hw, fun x hx => List.mem_takeWhile_imp hx⟩

theorem emailTail_complete (u cs2 : List Char) :
    ∀ j, (∃ j2 c cs3, 1 ≤ j2 ∧ j2 ≤ j ∧ cs2.drop j2 = c :: cs3 ∧ c ≠ '\n' ∧
        cs3.takeWhile isLowerAZ ≠ []) →
      ∃ m, emailTail u cs2 j = some m := by
  intro j
  induction j with
  | zero =>
    rintro ⟨j2, c, cs3, h1, h2, _⟩
    omega
  | succ j ih =>
    rintro ⟨j2, c, cs3, h1, h2, hd, hc, hw⟩
    unfold emailTail
    split
    case h_2 hdd =>
      apply ih
      refine ⟨j2, c, cs3, h1, ?_, hd, hc, hw⟩
      rcases Nat.lt_or_ge j2 (j + 1) with hlt | hge
      · omega
      · have hj2 : j2 = j + 1 := Nat.le_antisymm h2 hge
        rw [hj2, hdd] at hd
        exact absurd hd (by simp)
    case h_1 c2 cs32 hdd =>
      split
      case isTrue => exact ⟨_, rfl⟩
      case isFalse hcc =>
        apply ih
        refine ⟨j2, c, cs3, h1, ?_, hd, hc, hw⟩
        rcases Nat.lt_or_ge j2 (j + 1) with hlt | hge
        · omega
        · exfalso
          have hj2 : j2 = j + 1 := Nat.le_antisymm h2 hge
          rw [hj2, hdd] at hd
          injection hd with hce hcse
          apply hcc
          rw [hce, hcse]
          have hw2 : (cs3.takeWhile isLowerAZ).isEmpty = false := by
            rcases hcs : cs3.takeWhile isLowerAZ with _ | ⟨x, xs⟩
            · exact absurd hcs hw
            · rfl
          rw [hw2]
          simp [hc]

theorem matchEmailAt_sound (cs m : List Char) (h : matchEmailAt cs = some m) :
    ∃ rest, cs = m ++ rest ∧ emailShape m := by
  unfold matchEmailAt at h
  by_cases hu : (cs.takeWhile emailA).isEmpty
  · rw [if_pos hu] at h
    exact absurd h (by simp)
  · rw [if_neg hu] at h
    have hu1 : cs.takeWhile emailA ≠ [] := by
      intro he
      rw [he] at hu
      exact hu rfl
    have hu2 : ∀ x ∈ cs.takeWhile emailA, emailA x = true :=
      fun x hx => List.mem_takeWhile_imp hx
    split at h
    · rename_i cs2 hdrop
      rcases emailTail_sound (cs.takeWhile emailA) cs2 hu1 hu2
          (cs2.takeWhile emailB).length (Nat.le_refl _) m h with ⟨rest2, happ, hshape⟩
      refine ⟨rest2, ?_, hshape⟩
      have hcs : cs = cs.takeWhile emailA ++ '@' :: cs2 := by
        conv_lhs => rw [← List.take_append_drop (cs.takeWhile emailA).length cs]
        rw [hdrop]
        congr 1
        rw [← List.prefix_iff_eq_take.mp (List.takeWhile_prefix emailA)]
      rw [hcs, happ]
    · exact absurd h (by simp)

theorem matchEmailAt_complete (cs : List Char) (h : emailMatchableAt cs) :
    ∃ m2, matchEmailAt cs = some m2 := by
  rcases h with ⟨m, rest, hcs, u, v, c, w, hm, hu1, hu2, hv1, hv2, hc, hw1, hw2⟩
  have hcs2 : cs = u ++ '@' :: (v ++ c :: (w ++ rest)) := by
    rw [hcs, hm]
    simp [List.append_assoc]
  have hA : emailA '@' = false := rfl
  have htw : cs.takeWhile emailA = u := by
    rw [hcs2]
    exact takeWhile_eq_of_prefix emailA u '@' _ hu2 hA
  have hne : (cs.takeWhile emailA).isEmpty = false := by
    rw [htw]
    rcases hu0 : u with _ | ⟨x, xs⟩
    · exact absurd hu0 hu1
    · rfl
  have hdrop : cs.drop (cs.takeWhile emailA).length = '@' :: (v ++ c :: (w ++ rest)) := by
    rw [htw, hcs2]
    exact List.drop_left u _
  unfold matchEmailAt
  rw [hne]
  simp only [Bool.false_eq_true, if_false, hdrop]
  apply emailTail_complete
  refine ⟨v.length, c, w ++ rest, ?_, ?_, ?_, hc, ?_⟩
  · exact Nat.succ_le_of_lt (List.length_pos.mpr hv1)
  · rw [takeWhile_append_all emailB v _ hv2, List.length_append]
    omega
  · exact List.drop_left v _
  · rcases hw0 : w with _ | ⟨w0, ws⟩
    · exact absurd hw0 hw1
    · have hl : isLowerAZ w0 = true := hw2 w0 (hw0 ▸ List.mem_cons_self w0 ws)
      simp [List.takeWhile_cons, hl]

theorem emailMatchableAt_nil : ¬ emailMatchableAt [] := by
  rintro ⟨m, rest, hmr, u, v, c, w, hm, hu1, _⟩
  have h0 : m ++ rest = [] := hmr.symm
  rcases List.append_eq_nil.mp h0 with ⟨hm0, _⟩
  rw [hm] at hm0
  rcases List.append_eq_nil.mp hm0 with ⟨hu0, _⟩
  exact hu1 hu0

theorem emailSearch_none_sound (cs : List Char) (h : emailSearch cs = Option.none) :
    ∀ i, ¬ emailMatchableAt (cs.drop i) := by
  induction cs with
  | nil =>
    intro i
    rw [List.drop_nil]
    exact emailMatchableAt_nil
  | cons c0 rest ih =>
    intro i
    unfold emailSearch at h
    cases hma : matchEmailAt (c0 :: rest) with
    | some m =>
      rw [hma] at h
      exact absurd h (by simp)
    | none =>
      rw [hma] at h
      cases i with
      | zero =>
        rw [List.drop_zero]
        intro hmat
        rcases matchEmailAt_complete _ hmat with ⟨m2, hm2⟩
        rw [hma] at hm2
        exact absurd hm2 (by simp)
      | succ i =>
        rw [List.drop_succ_cons]
        exact ih h i

theorem emailSearch_some_sound (cs m : List Char) (h : emailSearch cs = some m) :
    ∃ i, matchEmailAt (cs.drop i) = some m ∧
      ∀ j, j < i → ¬ emailMatchableAt (cs.drop j) := by
  induction cs with
  | nil => exact absurd h (by simp [emailSearch])
  | cons c0 rest ih =>
    unfold emailSearch at h
    cases hma : matchEmailAt (c0 :: rest) with
    | some m0 =>
      rw [hma] at h
      refine ⟨0, ?_, ?_⟩
      · rw [List.drop_zero, hma]
        exact h
      · intro j hj
        omega
    | none =>
      rw [hma] at h
      rcases ih h with ⟨i, hi, hj⟩
      refine ⟨i + 1, ?_, ?_⟩
      · rw [List.drop_succ_cons]
        exact hi
      · intro j hjlt
        cases j with
        | zero =>
          rw [List.drop_zero]
          intro hmat
          rcases matchEmailAt_complete _ hmat with ⟨m2, hm2⟩
          rw [hma] at hm2
          exact absurd hm2 (by simp)
        | succ j =>
          rw [List.drop_succ_cons]
          exact hj j (Nat.lt_of_succ_lt_succ hjlt)

/-! ### Claim theorems: email extraction (C7) -/

/-- Claim C7 counterexample: "a@bcd" sanitizes to itself, the claim's
conservative pattern `[\w.-]+@[\w.-]+\.[a-z]+` has no match in it (no
literal dot), so the claim predicts an absent result — but the code's
pattern has an UNESCAPED dot and `sanitize_email` returns "a@bcd". -/
theorem repec_c7_counterexample :
    sanitize id (PyVal.str ['a', '@', 'b', 'c', 'd']) =
        PyVal.str ['a', '@', 'b', 'c', 'd'] ∧
      sanitize_email id (PyVal.str ['a', '@', 'b', 'c', 'd']) =
        PyVal.str ['a', '@', 'b', 'c', 'd'] ∧
      sanitize_email id (PyVal.str ['a', '@', 'b', 'c', 'd']) ≠ PyVal.none ∧
      claimEmailFound (lowerL ['a', '@', 'b', 'c', 'd']) = false := by
  refine ⟨by decide, by decide, by decide, by decide⟩

/-- Claim C7 (amended): `sanitize_email` applies `sanitize` and then
returns the first (leftmost) substring of the lowercased result matching
the source pattern `['a-z0-9._-]+@['a-z0-9._-]+.[a-z]+`, whose dot is
UNESCAPED and matches any character but a newline; it returns absent when
that pattern matches nowhere in the lowercased result. -/
theorem repec_c7_amended (render : List Char → List Char) (s y : List Char)
    (h : sanitize render (PyVal.str s) = PyVal.str y) :
    (∃ i m, matchEmailAt ((lowerL y).drop i) = some m ∧
        (∀ j, j < i → ¬ emailMatchableAt ((lowerL y).drop j)) ∧ emailShape m ∧
        sanitize_email render (PyVal.str s) = PyVal.str m) ∨
      ((∀ i, ¬ emailMatchableAt ((lowerL y).drop i)) ∧
        sanitize_email render (PyVal.str s) = PyVal.none) := by
  unfold sanitize_email
  rw [h]
  dsimp only
  cases hs : emailSearch (lowerL y) with
  | some m =>
    left
    rcases emailSearch_some_sound _ _ hs with ⟨i, hi, hj⟩
    rcases matchEmailAt_sound _ _ hi with ⟨rest, _, hshape⟩
    exact ⟨i, m, hi, hj, hshape, rfl⟩
  | none =>
    right
    exact ⟨emailSearch_none_sound _ hs, rfl⟩

/-- Witness for C7 (amended), at the concrete input "see a@b.cd" (which
sanitizes to itself). -/
theorem repec_c7_witness :
    (∃ i m, matchEmailAt ((lowerL "see a@b.cd".data).drop i) = some m ∧
        (∀ j, j < i → ¬ emailMatchableAt ((lowerL "see a@b.cd".data).drop j)) ∧
        emailShape m ∧
        sanitize_email id (PyVal.str "see a@b.cd".data) = PyVal.str m) ∨
      ((∀ i, ¬ emailMatchableAt ((lowerL "see a@b.cd".data).drop i)) ∧
        sanitize_email id (PyVal.str "see a@b.cd".data) = PyVal.none) :=
  repec_c7_amended id "see a@b.cd".data "see a@b.cd".data (by decide)

/-- Claim C3 counterexample: for the concrete detector that answers "en"
on every text, an absent title, abstract "hello" and declared language
"fr", the code resolves "en" (a single present text suffices for
`lang_and`), while the claim's rule — both detections must agree —
resolves the declared "fr". -/
theorem repec_c3_counterexample :
    resolveLanguage (fun _ => some "en") Option.none (some "hello") (some "fr") = some "en" ∧
      claimResolveLanguage (fun _ => some "en") Option.none (some "hello") (some "fr") =
        some "fr" ∧
      resolveLanguage (fun _ => some "en") Option.none (some "hello") (some "fr") ≠
        claimResolveLanguage (fun _ => some "en") Option.none (some "hello") (some "fr") := by
  refine ⟨?_, ?_, ?_⟩ <;> decide

/-- Claim C3 (amended): the persisted language is resolved by detecting
the present, non-empty sanitized texts among title and abstract; if their
detections agree on one non-unknown code it is used (a single present
text suffices); otherwise the lowercased declared "language" field when
it is 2 characters long; otherwise absent. -/
theorem repec_c3_amended (detect : String → Option String) (title abstract : Option String)
    (langField : Option String) :
    resolveLanguage detect title abstract langField =
      amendedResolveLanguage detect title abstract langField := by
  unfold resolveLanguage amendedResolveLanguage
  exact lang_and_pair detect title abstract _

/-! ### Claim theorems: non-string pass-through (C10) -/

/-- Claim C10: for every non-string value (None included), `sanitize` and
`sanitize_email` return it unchanged, so an absent field propagates as
absent through sanitization rather than raising. -/
theorem repec_c10_nonstring (render : List Char → List Char) (x : PyVal)
    (h : ∀ s, x ≠ PyVal.str s) :
    sanitize render x = x ∧ sanitize_email render x = x := by
  cases x with
  | str s => exact absurd rfl (h s)
  | none => exact ⟨rfl, rfl⟩
  | num n => exact ⟨rfl, rfl⟩

/-- Witness for C10, at the concrete non-string value None. -/
theorem repec_c10_witness :
    sanitize id PyVal.none = PyVal.none ∧ sanitize_email id PyVal.none = PyVal.none :=
  repec_c10_nonstring id PyVal.none (fun _ h => PyVal.noConfusion h)

end Repec
